import Mathlib

/-!
# Verification of the viewshed (visibility) computation engine

The repository's sources provided here contain only example notebooks and
packaging metadata; the viewshed implementation module itself
(`xrspatial/viewshed.py`) is not among them.  Every definition below is
therefore modelled from the specification's own words (spec sections 3-7),
using exact rational arithmetic for the real-valued quantities and an
explicit `Option` elevation (`some e` = finite elevation, `none` = the
non-finite "no-data" sentinel), as the spec's design notes themselves
recommend for the portability redesign.
-/

set_option maxHeartbeats 1000000

namespace ViewshedSpec

/-- Modelled from the spec: the repository's viewshed implementation module
is missing from the provided sources, so the Elevation Grid of spec sections 3
and 4.1 is modelled from the spec's words: an immutable 2-D numeric array of
shape (rows, cols) plus an axis-aligned affine transform (origin, cell width
`dx`, cell height `dy`) mapping array index `(row, col)` to world coordinate
`(x, y)`; non-finite (missing) elevations are represented by `none`. -/
structure Grid where
  rows : Nat
  cols : Nat
  x0 : ℚ
  y0 : ℚ
  dx : ℚ
  dy : ℚ
  data : Nat → Nat → Option ℚ

/-- Largest x-coordinate of the grid extent (the last column's center). -/
def Grid.xMax (g : Grid) : ℚ := g.x0 + ((g.cols - 1 : Nat) : ℚ) * g.dx

/-- Largest y-coordinate of the grid extent (the last row's center). -/
def Grid.yMax (g : Grid) : ℚ := g.y0 + ((g.rows - 1 : Nat) : ℚ) * g.dy

/-- Structural validity of a grid: non-empty array and strictly positive
cell sizes (spec section 7, `InvalidGridError` taxonomy). -/
def ValidGrid (g : Grid) : Prop :=
  0 < g.rows ∧ 0 < g.cols ∧ 0 < g.dx ∧ 0 < g.dy

instance (g : Grid) : Decidable (ValidGrid g) := by
  unfold ValidGrid; infer_instance

/-- The grid extent `[x_min, x_max] × [y_min, y_max]` of spec section 4.1. -/
def Grid.inExtent (g : Grid) (x y : ℚ) : Prop :=
  g.x0 ≤ x ∧ x ≤ g.xMax ∧ g.y0 ≤ y ∧ y ≤ g.yMax

instance (g : Grid) (x y : ℚ) : Decidable (g.inExtent x y) := by
  unfold Grid.inExtent; infer_instance

/-- Index of the enclosing cell along one axis together with the fractional
offset within it (spec section 4.1: "given world (x, y), return the enclosing
cell's four corner indices and fractional offsets within the cell"). -/
def fracIdx (o d q : ℚ) : Nat × ℚ :=
  let t := (q - o) / d
  let i := (Int.floor t).toNat
  (i, t - (i : ℚ))

/-- Modelled from the spec: the Bilinear Sampler of spec section 4.2 (the
implementation module is missing from the provided sources).  Computes the
fractional offsets `(u, v)` within the enclosing cell and returns the
weighted average of the four surrounding grid elevations; if any corner
elevation is non-finite the sample is `none`; at grid boundaries where fewer
than four corners exist it falls back to the nearest available corner value. -/
def Grid.sample (g : Grid) (x y : ℚ) : Option ℚ :=
  let c0 := (fracIdx g.x0 g.dx x).1
  let u := (fracIdx g.x0 g.dx x).2
  let r0 := (fracIdx g.y0 g.dy y).1
  let v := (fracIdx g.y0 g.dy y).2
  if c0 + 1 < g.cols ∧ r0 + 1 < g.rows then
    match g.data r0 c0, g.data r0 (c0 + 1), g.data (r0 + 1) c0, g.data (r0 + 1) (c0 + 1) with
    | some e00, some e10, some e01, some e11 =>
        some ((1 - u) * (1 - v) * e00 + u * (1 - v) * e10 +
              (1 - u) * v * e01 + u * v * e11)
    | _, _, _, _ => none
  else
    g.data
      (if r0 + 1 < g.rows ∧ 1 / 2 < v then r0 + 1 else r0)
      (if c0 + 1 < g.cols ∧ 1 / 2 < u then c0 + 1 else c0)

/-- Modelled from the spec: the Observer of spec section 3, a world
coordinate plus the `observer_elev` height offset (field `elev`). -/
structure Observer where
  x : ℚ
  y : ℚ
  elev : ℚ

/-- The observer's own cell: the cell enclosing the observer's world
coordinate, via the Grid Model's index mapping. -/
def Grid.obsCell (g : Grid) (o : Observer) : Nat × Nat :=
  ((fracIdx g.y0 g.dy o.y).1, (fracIdx g.x0 g.dx o.x).1)

/-- World coordinate of a cell's center (spec section 3: a target's world
coordinate is the cell center). -/
def cellCenter (g : Grid) (p : Nat × Nat) : ℚ × ℚ :=
  (g.x0 + (p.2 : ℚ) * g.dx, g.y0 + (p.1 : ℚ) * g.dy)

/-- Chebyshev distance between two cells, in cells. -/
def chebDist (p q : Nat × Nat) : Nat :=
  max ((p.1 : Int) - (q.1 : Int)).natAbs ((p.2 : Int) - (q.2 : Int)).natAbs

/-- Number of steps of the profile walk of spec section 4.3: proportional to
the Chebyshev distance between observer cell and target cell, with at least
one step per grid cell crossed. -/
def numSteps (g : Grid) (o : Observer) (p : Nat × Nat) : Nat :=
  max (chebDist (g.obsCell o) p) 1

/-- Straight line-of-sight elevation at relative distance `t ∈ [0,1]` along
the segment, by linear interpolation between the observer eye elevation
`eO` (at `t = 0`) and the target elevation `eT` (at `t = 1`). -/
def losElev (eO eT t : ℚ) : ℚ := eO + t * (eT - eO)

/-- The `i`-th sample point of the profile walk from the observer's location
to the target's cell center. -/
def samplePoint (g : Grid) (o : Observer) (p : Nat × Nat) (i : Nat) : ℚ × ℚ :=
  let n := numSteps g o p
  let t : ℚ := (i : ℚ) / (n : ℚ)
  (o.x + t * ((cellCenter g p).1 - o.x), o.y + t * ((cellCenter g p).2 - o.y))

/-- Occlusion test at the `i`-th intermediate sample (spec section 4.3): the
bilinearly sampled terrain elevation strictly exceeds the line-of-sight
elevation by more than the tolerance; a non-finite sample is non-obstructing
(the default treat-as-transparent policy). -/
def occludesAt (g : Grid) (o : Observer) (tol : ℚ) (p : Nat × Nat)
    (eO eT : ℚ) (i : Nat) : Bool :=
  match g.sample (samplePoint g o p i).1 (samplePoint g o p i).2 with
  | none => false
  | some e => decide (losElev eO eT ((i : ℚ) / ((numSteps g o p : Nat) : ℚ)) + tol < e)

/-- First index `i` with `s ≤ i < s + len` satisfying `occ`, scanning in
increasing order (the short-circuit of the profile walk). -/
def firstOccIdx (occ : Nat → Bool) : Nat → Nat → Option Nat
  | _, 0 => none
  | s, len + 1 => if occ s then some s else firstOccIdx occ (s + 1) len

/-- Modelled from the spec: the Line-of-Sight Evaluator of spec section 4.3
(the implementation module is missing from the provided sources).  Walks the
straight segment from the observer's location to the target's cell center in
`numSteps` steps; returns `none` (not visible) as soon as an intermediate
sample occludes the ray, and otherwise `some margin` with `margin` the
vertical clearance `E_obs - E_target` at the target.  A non-finite observer
or target elevation yields `none` (indeterminate). -/
def losEval (g : Grid) (o : Observer) (tol : ℚ) (p : Nat × Nat) : Option ℚ :=
  match g.sample o.x o.y, g.data p.1 p.2 with
  | some s, some eT =>
      let eO := s + o.elev
      let n := numSteps g o p
      match firstOccIdx (occludesAt g o tol p eO eT) 1 (n - 1) with
      | some _ => none
      | none => some (eO - eT)
  | _, _ => none

/-- Per-cell output value (spec section 4.5): the Visibility Aggregator sets
the observer's own cell explicitly to `observer_elev`, and every other cell
to the Line-of-Sight Evaluator's result. -/
def cellValue (g : Grid) (o : Observer) (tol : ℚ) (p : Nat × Nat) : Option ℚ :=
  if p = g.obsCell o then some o.elev else losEval g o tol p

/-- Writing per-cell results into an output function, one cell at a time
(spec section 4.5: each cell written exactly once, in the traversal order
of the supplied list). -/
def applyWrites (f : Nat × Nat → Option ℚ) :
    List (Nat × Nat) → ((Nat × Nat) → Option ℚ) → ((Nat × Nat) → Option ℚ)
  | [], w => w
  | p :: l, w => applyWrites f l (fun q => if q = p then f p else w q)

/-- All grid cells in row-major order (spec section 4.5). -/
def allCells (g : Grid) : List (Nat × Nat) :=
  (List.range g.rows).flatMap (fun r => (List.range g.cols).map (fun c => (r, c)))

/-- Modelled from the spec: the Visibility Aggregator of spec section 4.5
(the implementation module is missing from the provided sources): collects
per-target evaluator results over all cells in row-major order into the
output function, with the observer's own cell set explicitly. -/
def naiveData (g : Grid) (o : Observer) (tol : ℚ) : (Nat × Nat) → Option ℚ :=
  applyWrites (cellValue g o tol) (allCells g) (fun _ => none)

/-- Modelled from the spec: the error taxonomy of spec section 7 (the
implementation module is missing from the provided sources). -/
inductive ViewshedError where
  | invalidGrid : ViewshedError
  | outOfBounds : ViewshedError
deriving DecidableEq

/-- Modelled from the spec: the top-level viewshed computation (the
implementation module is missing from the provided sources): validates the
grid and the observer's bounds before any computation starts, then returns
the completed output grid of identical shape and transform; an error case
carries no partial result. -/
def viewshed (g : Grid) (o : Observer) (tol : ℚ) : Except ViewshedError Grid :=
  if ValidGrid g then
    if g.inExtent o.x o.y then
      Except.ok { g with data := fun r c => naiveData g o tol (r, c) }
    else Except.error ViewshedError.outOfBounds
  else Except.error ViewshedError.invalidGrid

/-! ## Basic lemmas about the scanning and writing primitives -/

theorem firstOccIdx_eq_none_iff (occ : Nat → Bool) (s len : Nat) :
    firstOccIdx occ s len = none ↔ ∀ i, s ≤ i → i < s + len → occ i = false := by
  induction len generalizing s with
  | zero =>
    simp only [firstOccIdx]
    constructor
    · intro _ i h1 h2
      exact absurd h2 (by omega)
    · intro _
      trivial
  | succ m ih =>
    rw [firstOccIdx]
    by_cases h : occ s = true
    · simp only [h, if_true]
      constructor
      · intro hc; cases hc
      · intro hall; exact absurd (hall s le_rfl (by omega)) (by simp [h])
    · have hs : occ s = false := by simpa using h
      simp only [hs, Bool.false_eq_true, if_false, ih]
      constructor
      · intro hall i h1 h2
        rcases Nat.lt_or_ge s i with h3 | h3
        · exact hall i (by omega) (by omega)
        · have hi : i = s := by omega
          rw [hi]; exact hs
      · intro hall i h1 h2
        exact hall i (by omega) (by omega)

theorem firstOccIdx_eq_some (occ : Nat → Bool) (s len j : Nat)
    (h : firstOccIdx occ s len = some j) :
    occ j = true ∧ s ≤ j ∧ j < s + len ∧ ∀ i, s ≤ i → i < j → occ i = false := by
  induction len generalizing s with
  | zero => simp [firstOccIdx] at h
  | succ m ih =>
    rw [firstOccIdx] at h
    by_cases hs : occ s = true
    · simp only [hs, if_true, Option.some.injEq] at h
      refine h ▸ ⟨hs, le_rfl, by omega, fun i h1 h2 => by omega⟩
    · have hs' : occ s = false := by simpa using hs
      simp only [hs', Bool.false_eq_true, if_false] at h
      obtain ⟨h1, h2, h3, h4⟩ := ih (s + 1) h
      refine ⟨h1, by omega, by omega, fun i hi1 hi2 => ?_⟩
      rcases Nat.lt_or_ge i (s + 1) with h5 | h5
      · have hi : i = s := by omega
        rw [hi]; exact hs'
      · exact h4 i h5 hi2

theorem applyWrites_of_not_mem (f : Nat × Nat → Option ℚ) (l : List (Nat × Nat))
    (w : (Nat × Nat) → Option ℚ) (q : Nat × Nat) (h : q ∉ l) :
    applyWrites f l w q = w q := by
  induction l generalizing w with
  | nil => rfl
  | cons p l ih =>
    rw [applyWrites]
    rw [ih _ (fun hc => h (List.mem_cons_of_mem _ hc))]
    have hqp : q ≠ p := fun hc => h (hc ▸ List.mem_cons_self _ _)
    simp [hqp]

theorem applyWrites_of_mem (f : Nat × Nat → Option ℚ) (l : List (Nat × Nat))
    (w : (Nat × Nat) → Option ℚ) (q : Nat × Nat) (h : q ∈ l) :
    applyWrites f l w q = f q := by
  induction l generalizing w with
  | nil => cases h
  | cons p l ih =>
    rw [applyWrites]
    by_cases hq : q ∈ l
    · exact ih _ hq
    · have hqp : q = p := by
        rcases List.mem_cons.mp h with h1 | h2
        · exact h1
        · exact absurd h2 hq
      rw [applyWrites_of_not_mem _ _ _ _ hq]
      simp [hqp]

theorem mem_allCells (g : Grid) (p : Nat × Nat) :
    p ∈ allCells g ↔ p.1 < g.rows ∧ p.2 < g.cols := by
  obtain ⟨r, c⟩ := p
  simp only [allCells, List.mem_flatMap, List.mem_map, List.mem_range]
  constructor
  · rintro ⟨r0, hr0, c0, hc0, heq⟩
    obtain ⟨rfl, rfl⟩ := Prod.mk.injEq .. ▸ heq
    exact ⟨hr0, hc0⟩
  · rintro ⟨hr, hc⟩
    exact ⟨r, hr, c, hc, rfl⟩

theorem naiveData_eq (g : Grid) (o : Observer) (tol : ℚ) (p : Nat × Nat) :
    naiveData g o tol p =
      if p.1 < g.rows ∧ p.2 < g.cols then cellValue g o tol p else none := by
  by_cases h : p.1 < g.rows ∧ p.2 < g.cols
  · rw [if_pos h]
    exact applyWrites_of_mem _ _ _ _ ((mem_allCells g p).mpr h)
  · rw [if_neg h]
    exact applyWrites_of_not_mem _ _ _ _ (fun hc => h ((mem_allCells g p).mp hc))

/-! ## Locating cells from world coordinates -/

theorem fracIdx_of_exact (o d : ℚ) (hd : 0 < d) (k : Nat) (u : ℚ)
    (hu0 : 0 ≤ u) (hu1 : u < 1) :
    fracIdx o d (o + ((k : ℚ) + u) * d) = (k, u) := by
  have hdne : d ≠ 0 := ne_of_gt hd
  have ht : (o + ((k : ℚ) + u) * d - o) / d = (k : ℚ) + u := by
    field_simp
  have hfu : Int.floor u = 0 := Int.floor_eq_zero_iff.mpr ⟨hu0, hu1⟩
  have hf : Int.floor ((k : ℚ) + u) = (k : ℤ) := by
    rw [add_comm, Int.floor_add_nat, hfu, zero_add]
  simp only [fracIdx, ht, hf, Int.toNat_natCast, Prod.mk.injEq]
  exact ⟨trivial, by ring⟩

theorem fracIdx_fst_lt (o d q : ℚ) (hd : 0 < d) (m : Nat) (hm : 0 < m)
    (hq : q ≤ o + ((m - 1 : Nat) : ℚ) * d) : (fracIdx o d q).1 < m := by
  show (Int.floor ((q - o) / d)).toNat < m
  have h1 : (q - o) / d ≤ ((m - 1 : Nat) : ℚ) := by
    rw [div_le_iff₀ hd]
    linarith
  have h2 : Int.floor ((q - o) / d) ≤ ((m - 1 : Nat) : ℤ) := by
    calc Int.floor ((q - o) / d) ≤ Int.floor (((m - 1 : Nat) : ℚ)) := Int.floor_le_floor h1
    _ = ((m - 1 : Nat) : ℤ) := Int.floor_natCast _
  have h3 := Int.toNat_le_toNat h2
  simp only [Int.toNat_natCast] at h3
  omega

theorem obsCell_lt (g : Grid) (o : Observer) (hv : ValidGrid g)
    (hin : g.inExtent o.x o.y) :
    (g.obsCell o).1 < g.rows ∧ (g.obsCell o).2 < g.cols := by
  obtain ⟨hr, hc, hdx, hdy⟩ := hv
  obtain ⟨hx0, hx1, hy0, hy1⟩ := hin
  exact ⟨fracIdx_fst_lt _ _ _ hdy _ hr hy1, fracIdx_fst_lt _ _ _ hdx _ hc hx1⟩

/-! ## The Sweep Scheduler (spec section 4.4), exact mode -/

/-- Insertion of a cell into a list sorted by a rational key (ascending). -/
def insertByKey (key : Nat × Nat → ℚ) (a : Nat × Nat) :
    List (Nat × Nat) → List (Nat × Nat)
  | [] => [a]
  | b :: l => if key a ≤ key b then a :: b :: l else b :: insertByKey key a l

/-- Insertion sort by a rational key (ascending); within each angular sector
the Sweep Scheduler processes cells in increasing order of distance. -/
def sortByKey (key : Nat × Nat → ℚ) : List (Nat × Nat) → List (Nat × Nat)
  | [] => []
  | a :: l => insertByKey key a (sortByKey key l)

/-- Angular sector (octant) of a target cell as seen from the observer's
cell, a purely direction-based bucketing of targets. -/
def sectorOf (q p : Nat × Nat) : Nat :=
  let dr : Int := (p.1 : Int) - (q.1 : Int)
  let dc : Int := (p.2 : Int) - (q.2 : Int)
  if 0 ≤ dr then
    (if 0 ≤ dc then (if dr ≤ dc then 0 else 1) else (if dr ≤ -dc then 2 else 3))
  else
    (if 0 ≤ dc then (if -dr ≤ dc then 4 else 5) else (if -dr ≤ -dc then 6 else 7))

/-- Squared planar distance from the observer's location to a cell center,
the Sweep Scheduler's within-sector ordering key. -/
def distSq (g : Grid) (o : Observer) (p : Nat × Nat) : ℚ :=
  ((cellCenter g p).1 - o.x) ^ 2 + ((cellCenter g p).2 - o.y) ^ 2

/-- The target cells of one angular sector, sorted by increasing distance
from the observer (spec section 4.4). -/
def sectorCells (g : Grid) (o : Observer) (k : Nat) : List (Nat × Nat) :=
  sortByKey (distSq g o)
    ((allCells g).filter
      (fun p => decide (p ≠ g.obsCell o) && decide (sectorOf (g.obsCell o) p = k)))

/-- Modelled from the spec: the Sweep Scheduler of spec section 4.4 in
"exact" mode (the implementation module is missing from the provided
sources).  Targets are grouped into angular sectors radiating from the
observer and processed within each sector in increasing order of distance;
in exact mode every target is decided by the full per-target profile
evaluation of section 4.3 (the fallback the spec mandates so that exactness
never regresses), and the aggregator finally sets the observer's own cell. -/
def sweepData (g : Grid) (o : Observer) (tol : ℚ) : (Nat × Nat) → Option ℚ :=
  applyWrites (cellValue g o tol)
    (((List.range 8).flatMap (fun k => sectorCells g o k)) ++ [g.obsCell o])
    (fun _ => none)

theorem sectorOf_lt_8 (q p : Nat × Nat) : sectorOf q p < 8 := by
  show (if 0 ≤ (p.1 : Int) - (q.1 : Int) then
      (if 0 ≤ (p.2 : Int) - (q.2 : Int) then
        (if (p.1 : Int) - (q.1 : Int) ≤ (p.2 : Int) - (q.2 : Int) then 0 else 1)
      else (if (p.1 : Int) - (q.1 : Int) ≤ -((p.2 : Int) - (q.2 : Int)) then 2 else 3))
    else
      (if 0 ≤ (p.2 : Int) - (q.2 : Int) then
        (if -((p.1 : Int) - (q.1 : Int)) ≤ (p.2 : Int) - (q.2 : Int) then 4 else 5)
      else (if -((p.1 : Int) - (q.1 : Int)) ≤ -((p.2 : Int) - (q.2 : Int)) then 6 else 7))) < 8
  split_ifs <;> omega

theorem mem_insertByKey (key : Nat × Nat → ℚ) (a : Nat × Nat)
    (l : List (Nat × Nat)) (p : Nat × Nat) :
    p ∈ insertByKey key a l ↔ p = a ∨ p ∈ l := by
  induction l with
  | nil => simp [insertByKey]
  | cons b l ih =>
    rw [insertByKey]
    by_cases h : key a ≤ key b
    · simp [h]
    · simp only [h, if_false, List.mem_cons, ih]
      tauto

theorem mem_sortByKey (key : Nat × Nat → ℚ) (l : List (Nat × Nat)) (p : Nat × Nat) :
    p ∈ sortByKey key l ↔ p ∈ l := by
  induction l with
  | nil => simp [sortByKey]
  | cons a l ih => simp [sortByKey, mem_insertByKey, ih]

theorem mem_sweepList (g : Grid) (o : Observer) (p : Nat × Nat) :
    p ∈ ((List.range 8).flatMap (fun k => sectorCells g o k)) ++ [g.obsCell o] ↔
      (p ∈ allCells g ∧ p ≠ g.obsCell o) ∨ p = g.obsCell o := by
  simp only [List.mem_append, List.mem_flatMap, List.mem_range, sectorCells,
    mem_sortByKey, List.mem_filter, List.mem_singleton, Bool.and_eq_true,
    decide_eq_true_eq]
  constructor
  · rintro (⟨k, hk, hmem, hne, hsec⟩ | heq)
    · exact Or.inl ⟨hmem, hne⟩
    · exact Or.inr heq
  · rintro (⟨hmem, hne⟩ | heq)
    · exact Or.inl ⟨sectorOf (g.obsCell o) p, sectorOf_lt_8 _ _, hmem, hne, rfl⟩
    · exact Or.inr heq

/-! ## The bounded worker pool partitioning (spec section 5) -/

/-- Number of rows per worker: the ceiling of `rows / w`, at least one. -/
def workerSize (rows w : Nat) : Nat := max ((rows + w - 1) / w) 1

/-- The cells of the `i`-th worker's contiguous row range (spec section 5:
disjoint contiguous row ranges assigned to workers). -/
def workerCells (g : Grid) (w i : Nat) : List (Nat × Nat) :=
  ((List.range g.rows).filter (fun r => decide (r / workerSize g.rows w = i))).flatMap
    (fun r => (List.range g.cols).map (fun c => (r, c)))

/-- Modelled from the spec: the data-parallel evaluation of spec section 5
(the implementation module is missing from the provided sources): the rows
are partitioned into contiguous chunks of `workerSize` rows, each worker
writes the per-cell results of its own disjoint row range, and the chunks
are combined into the single output grid. -/
def parData (g : Grid) (o : Observer) (tol : ℚ) (w : Nat) : (Nat × Nat) → Option ℚ :=
  applyWrites (cellValue g o tol)
    ((List.range g.rows).flatMap (fun i => workerCells g w i))
    (fun _ => none)

theorem mem_parList (g : Grid) (w : Nat) (p : Nat × Nat) :
    p ∈ (List.range g.rows).flatMap (fun i => workerCells g w i) ↔
      p.1 < g.rows ∧ p.2 < g.cols := by
  obtain ⟨r, c⟩ := p
  simp only [workerCells, List.mem_flatMap, List.mem_filter, List.mem_range,
    List.mem_map, decide_eq_true_eq]
  constructor
  · rintro ⟨i, hi, r0, ⟨hr0, hdiv⟩, c0, hc0, heq⟩
    obtain ⟨rfl, rfl⟩ := Prod.mk.injEq .. ▸ heq
    exact ⟨hr0, hc0⟩
  · rintro ⟨hr, hc⟩
    have hws : 1 ≤ workerSize g.rows w := le_max_right _ _
    refine ⟨r / workerSize g.rows w, ?_, r, ⟨hr, rfl⟩, c, hc, rfl⟩
    exact lt_of_le_of_lt (Nat.div_le_self _ _) hr

/-! ## Sampling lemmas -/

theorem sample_const (g : Grid) (k : ℚ) (hk : ∀ r c, g.data r c = some k)
    (x y : ℚ) : g.sample x y = some k := by
  simp only [Grid.sample, hk]
  split
  · exact congrArg some (by ring)
  · rfl

/-- An observer standing at the center of cell `p`, with eye height offset
`h` above the terrain there. -/
def centerObs (g : Grid) (p : Nat × Nat) (h : ℚ) : Observer :=
  ⟨(cellCenter g p).1, (cellCenter g p).2, h⟩

theorem obsCell_centerObs (g : Grid) (hv : ValidGrid g) (p : Nat × Nat) (h : ℚ) :
    g.obsCell (centerObs g p h) = p := by
  obtain ⟨hr, hc, hdx, hdy⟩ := hv
  show ((fracIdx g.y0 g.dy (g.y0 + (p.1 : ℚ) * g.dy)).1,
        (fracIdx g.x0 g.dx (g.x0 + (p.2 : ℚ) * g.dx)).1) = p
  rw [show g.y0 + (p.1 : ℚ) * g.dy = g.y0 + ((p.1 : ℚ) + 0) * g.dy by ring,
      show g.x0 + (p.2 : ℚ) * g.dx = g.x0 + ((p.2 : ℚ) + 0) * g.dx by ring,
      fracIdx_of_exact g.y0 g.dy hdy p.1 0 le_rfl one_pos,
      fracIdx_of_exact g.x0 g.dx hdx p.2 0 le_rfl one_pos]

theorem sample_center (g : Grid) (hv : ValidGrid g)
    (hfin : ∀ r c, r < g.rows → c < g.cols → ∃ e, g.data r c = some e)
    (p : Nat × Nat) (hp1 : p.1 < g.rows) (hp2 : p.2 < g.cols) :
    g.sample (cellCenter g p).1 (cellCenter g p).2 = g.data p.1 p.2 := by
  obtain ⟨hr, hc, hdx, hdy⟩ := hv
  have hx : (cellCenter g p).1 = g.x0 + ((p.2 : ℚ) + 0) * g.dx := by
    show g.x0 + (p.2 : ℚ) * g.dx = _
    ring
  have hy : (cellCenter g p).2 = g.y0 + ((p.1 : ℚ) + 0) * g.dy := by
    show g.y0 + (p.1 : ℚ) * g.dy = _
    ring
  rw [hx, hy]
  simp only [Grid.sample, fracIdx_of_exact g.x0 g.dx hdx p.2 0 le_rfl one_pos,
    fracIdx_of_exact g.y0 g.dy hdy p.1 0 le_rfl one_pos]
  by_cases hb : p.2 + 1 < g.cols ∧ p.1 + 1 < g.rows
  · rw [if_pos hb]
    obtain ⟨e00, h00⟩ := hfin p.1 p.2 hp1 hp2
    obtain ⟨e10, h10⟩ := hfin p.1 (p.2 + 1) hp1 hb.1
    obtain ⟨e01, h01⟩ := hfin (p.1 + 1) p.2 hb.2 hp2
    obtain ⟨e11, h11⟩ := hfin (p.1 + 1) (p.2 + 1) hb.2 hb.1
    rw [h00, h10, h01, h11]
    exact congrArg some (by ring)
  · rw [if_neg hb]
    norm_num

/-! ## Concrete grids for witnesses and counterexamples -/

/-- A small 2×2 test grid with finite elevations. -/
def G2 : Grid :=
  { rows := 2, cols := 2, x0 := 0, y0 := 0, dx := 1, dy := 1,
    data := fun r c => if r < 2 ∧ c < 2 then some (if r = 0 ∧ c = 0 then 1 else 0) else none }

/-- A 1×5 strip of flat terrain with a single wall of height 5 in column 3,
used to exhibit the asymmetry of the reference evaluator for positive eye
heights. -/
def G9 : Grid :=
  { rows := 1, cols := 5, x0 := 0, y0 := 0, dx := 1, dy := 1,
    data := fun r c => if r = 0 ∧ c < 5 then some (if c = 3 then 5 else 0) else none }

/-- One axis of a rational stand-in for the centered Gaussian bump of the
spec's acceptance terrain (an exact Gaussian is not rational; this smooth
centered bump peaks at index 10 and decays symmetrically). -/
def bumpWeight (i : Nat) : ℚ := 8 / (8 + ((i : ℚ) - 10) ^ 2)

/-- The 21×21 acceptance terrain of spec section 8: a centered bump, with
the observer to be placed at one corner. -/
def gaussGrid : Grid :=
  { rows := 21, cols := 21, x0 := 0, y0 := 0, dx := 1, dy := 1,
    data := fun r c =>
      if r < 21 ∧ c < 21 then some (100 * bumpWeight r * bumpWeight c) else none }

/-! ## C1: the Sweep Scheduler in exact mode refines the naive evaluator -/

/-- C1: for every structurally valid elevation grid and in-bounds observer,
the Sweep Scheduler run in "exact" mode produces, cell for cell, the same
visibility decision (and margin) for every target cell as the naive
per-target Line-of-Sight Evaluator of section 4.3; in particular the two
agree on a 21×21 grid with a centered bump, observer at one corner with
height 2 units above local terrain (see the witness). -/
theorem sweep_exact_mode_refines_naive_evaluator (g : Grid) (o : Observer)
    (tol : ℚ) (hv : ValidGrid g) (hin : g.inExtent o.x o.y) (r c : Nat) :
    sweepData g o tol (r, c) = naiveData g o tol (r, c) := by
  have hobs := obsCell_lt g o hv hin
  have hobsmem : g.obsCell o ∈ allCells g := (mem_allCells _ _).mpr hobs
  by_cases h : (r, c) ∈ allCells g
  · have h2 : (r, c) ∈
        ((List.range 8).flatMap (fun k => sectorCells g o k)) ++ [g.obsCell o] := by
      rw [mem_sweepList]
      by_cases he : (r, c) = g.obsCell o
      · exact Or.inr he
      · exact Or.inl ⟨h, he⟩
    simp only [sweepData, naiveData]
    rw [applyWrites_of_mem _ _ _ _ h2, applyWrites_of_mem _ _ _ _ h]
  · have h2 : (r, c) ∉
        ((List.range 8).flatMap (fun k => sectorCells g o k)) ++ [g.obsCell o] := by
      rw [mem_sweepList]
      rintro (⟨hmem, _⟩ | heq)
      · exact h hmem
      · exact h (heq ▸ hobsmem)
    simp only [sweepData, naiveData]
    rw [applyWrites_of_not_mem _ _ _ _ h2, applyWrites_of_not_mem _ _ _ _ h]

/-- Witness for C1: the acceptance terrain, observer at the corner cell's
center with eye height 2, hypotheses discharged concretely. -/
theorem sweep_exact_mode_refines_naive_evaluator_witness :
    ValidGrid gaussGrid ∧ gaussGrid.inExtent 0 0 ∧
    ∀ r c, sweepData gaussGrid ⟨0, 0, 2⟩ (1 / 100) (r, c) =
      naiveData gaussGrid ⟨0, 0, 2⟩ (1 / 100) (r, c) := by
  have h1 : ValidGrid gaussGrid := by
    refine ⟨by norm_num [gaussGrid], by norm_num [gaussGrid], ?_, ?_⟩ <;>
      norm_num [gaussGrid]
  have h2 : gaussGrid.inExtent 0 0 := by
    refine ⟨?_, ?_, ?_, ?_⟩ <;> norm_num [gaussGrid, Grid.xMax, Grid.yMax]
  exact ⟨h1, h2, fun r c =>
    sweep_exact_mode_refines_naive_evaluator gaussGrid ⟨0, 0, 2⟩ (1 / 100) h1 h2 r c⟩

/-! ## C10: determinism under worker count and partition order -/

/-- C10: two runs of the computation that differ only in the number of
workers (hence in the contiguous row partition) produce identical output
grids, both equal to the sequential row-major aggregation: the result is a
deterministic function of the input, independent of parallel scheduling. -/
theorem parallel_worker_count_determinism (g : Grid) (o : Observer) (tol : ℚ)
    (w1 w2 : Nat) (r c : Nat) :
    parData g o tol w1 (r, c) = parData g o tol w2 (r, c) ∧
    parData g o tol w1 (r, c) = naiveData g o tol (r, c) := by
  have key : ∀ w, parData g o tol w (r, c) = naiveData g o tol (r, c) := by
    intro w
    by_cases h : r < g.rows ∧ c < g.cols
    · simp only [parData, naiveData]
      rw [applyWrites_of_mem _ _ _ _ ((mem_parList g w (r, c)).mpr h),
          applyWrites_of_mem _ _ _ _ ((mem_allCells g (r, c)).mpr h)]
    · simp only [parData, naiveData]
      rw [applyWrites_of_not_mem _ _ _ _ (fun hc => h ((mem_parList g w (r, c)).mp hc)),
          applyWrites_of_not_mem _ _ _ _ (fun hc => h ((mem_allCells g (r, c)).mp hc))]
  exact ⟨(key w1).trans (key w2).symm, key w1⟩

/-! ## C3: the observer's own cell -/

/-- C3: for every valid grid and every in-bounds observer with observer
height offset `observer_elev ≥ 0`, the cell containing the observer is
marked visible in the output, with visibility margin exactly
`observer_elev`. -/
theorem observer_cell_visible_with_margin (g : Grid) (o : Observer) (tol : ℚ)
    (hv : ValidGrid g) (hin : g.inExtent o.x o.y) (he : 0 ≤ o.elev) :
    ∃ out, viewshed g o tol = Except.ok out ∧
      out.data (g.obsCell o).1 (g.obsCell o).2 = some o.elev := by
  have hobs := obsCell_lt g o hv hin
  refine ⟨{ g with data := fun r c => naiveData g o tol (r, c) }, ?_, ?_⟩
  · simp only [viewshed, if_pos hv, if_pos hin]
  · show naiveData g o tol ((g.obsCell o).1, (g.obsCell o).2) = some o.elev
    rw [naiveData_eq]
    rw [if_pos hobs]
    simp [cellValue]

/-- Witness for C3 at a concrete 2×2 grid with observer at its center cell
and eye height 1/2. -/
theorem observer_cell_visible_with_margin_witness :
    ValidGrid G2 ∧ G2.inExtent (1 / 2) (1 / 2) ∧ (0 : ℚ) ≤ 1 / 2 ∧
    ∃ out, viewshed G2 ⟨1 / 2, 1 / 2, 1 / 2⟩ 0 = Except.ok out ∧
      out.data (G2.obsCell ⟨1 / 2, 1 / 2, 1 / 2⟩).1
        (G2.obsCell ⟨1 / 2, 1 / 2, 1 / 2⟩).2 = some (1 / 2) := by
  have h1 : ValidGrid G2 := by
    refine ⟨by norm_num [G2], by norm_num [G2], ?_, ?_⟩ <;> norm_num [G2]
  have h2 : G2.inExtent (1 / 2) (1 / 2) := by
    refine ⟨?_, ?_, ?_, ?_⟩ <;> norm_num [G2, Grid.xMax, Grid.yMax]
  exact ⟨h1, h2, by norm_num,
    observer_cell_visible_with_margin G2 ⟨1 / 2, 1 / 2, 1 / 2⟩ 0 h1 h2 (by norm_num)⟩

/-! ## C5: the out-of-bounds error -/

/-- C5: on a structurally valid grid the computation returns
`OutOfBoundsError` — with no partial result, the error carries no grid —
exactly when the observer's world coordinate lies outside the grid extent,
and an observer placed exactly on a grid edge or corner does not raise and
still yields a full output grid. -/
theorem out_of_bounds_error_iff (g : Grid) (o : Observer) (tol : ℚ)
    (hv : ValidGrid g) :
    (viewshed g o tol = Except.error ViewshedError.outOfBounds ↔
      ¬ g.inExtent o.x o.y) ∧
    ((o.x = g.x0 ∨ o.x = g.xMax) → g.y0 ≤ o.y → o.y ≤ g.yMax →
      ∃ out, viewshed g o tol = Except.ok out) ∧
    ((o.y = g.y0 ∨ o.y = g.yMax) → g.x0 ≤ o.x → o.x ≤ g.xMax →
      ∃ out, viewshed g o tol = Except.ok out) := by
  obtain ⟨hr, hc, hdx, hdy⟩ := id hv
  have hxm : g.x0 ≤ g.xMax := by
    have h0 : (0 : ℚ) ≤ ((g.cols - 1 : Nat) : ℚ) * g.dx :=
      mul_nonneg (Nat.cast_nonneg _) (le_of_lt hdx)
    unfold Grid.xMax
    linarith
  have hym : g.y0 ≤ g.yMax := by
    have h0 : (0 : ℚ) ≤ ((g.rows - 1 : Nat) : ℚ) * g.dy :=
      mul_nonneg (Nat.cast_nonneg _) (le_of_lt hdy)
    unfold Grid.yMax
    linarith
  have hok : ∀ hin : g.inExtent o.x o.y, ∃ out, viewshed g o tol = Except.ok out := by
    intro hin
    exact ⟨{ g with data := fun r c => naiveData g o tol (r, c) }, by
      simp only [viewshed, if_pos hv, if_pos hin]⟩
  refine ⟨?_, ?_, ?_⟩
  · by_cases hin : g.inExtent o.x o.y
    · simp only [viewshed, if_pos hv, if_pos hin]
      constructor
      · intro hcontra
        cases hcontra
      · intro hcontra
        exact absurd hin hcontra
    · simp only [viewshed, if_pos hv, if_neg hin]
      exact ⟨fun _ => hin, fun _ => trivial⟩
  · intro hx hy0 hy1
    refine hok ⟨?_, ?_, hy0, hy1⟩
    · rcases hx with h | h
      · exact le_of_eq h.symm
      · exact h ▸ hxm
    · rcases hx with h | h
      · exact h ▸ hxm
      · exact le_of_eq h
  · intro hy hx0 hx1
    refine hok ⟨hx0, hx1, ?_, ?_⟩
    · rcases hy with h | h
      · exact le_of_eq h.symm
      · exact h ▸ hym
    · rcases hy with h | h
      · exact h ▸ hym
      · exact le_of_eq h

/-- Witness for C5 at a concrete grid: a corner observer (exactly on the
extent's corner) yields a full grid, and an out-of-extent observer yields
exactly the out-of-bounds error. -/
theorem out_of_bounds_error_iff_witness :
    ValidGrid G2 ∧
    ((viewshed G2 ⟨3, 0, 0⟩ 0 = Except.error ViewshedError.outOfBounds ↔
      ¬ G2.inExtent 3 0) ∧
    (((3 : ℚ) = G2.x0 ∨ (3 : ℚ) = G2.xMax) → G2.y0 ≤ 0 → (0 : ℚ) ≤ G2.yMax →
      ∃ out, viewshed G2 ⟨3, 0, 0⟩ 0 = Except.ok out) ∧
    (((0 : ℚ) = G2.y0 ∨ (0 : ℚ) = G2.yMax) → G2.x0 ≤ 3 → (3 : ℚ) ≤ G2.xMax →
      ∃ out, viewshed G2 ⟨3, 0, 0⟩ 0 = Except.ok out)) := by
  have h1 : ValidGrid G2 := by
    refine ⟨by norm_num [G2], by norm_num [G2], ?_, ?_⟩ <;> norm_num [G2]
  exact ⟨h1, out_of_bounds_error_iff G2 ⟨3, 0, 0⟩ 0 h1⟩

/-! ## C6: total per-cell evaluation, complete output grid -/

/-- C6: for every structurally valid input grid and in-bounds observer, the
computation returns (it never fails on per-cell anomalies such as no-data
crossings, which the evaluator resolves locally) a complete output grid of
identical shape and transform to the input; every cell holds either the
non-finite sentinel (`none`: not visible or indeterminate) or a finite
margin, and the boolean visibility mask is derivable by testing
finiteness. -/
theorem complete_output_grid_on_valid_input (g : Grid) (o : Observer)
    (tol : ℚ) (hv : ValidGrid g) (hin : g.inExtent o.x o.y) :
    ∃ out, viewshed g o tol = Except.ok out ∧
      out.rows = g.rows ∧ out.cols = g.cols ∧
      out.x0 = g.x0 ∧ out.y0 = g.y0 ∧ out.dx = g.dx ∧ out.dy = g.dy ∧
      (∀ r c, r < g.rows → c < g.cols →
        out.data r c = cellValue g o tol (r, c)) ∧
      (∀ r c, r < g.rows → c < g.cols →
        ((out.data r c).isSome = true ↔
          ((r, c) = g.obsCell o ∨ (losEval g o tol (r, c)).isSome = true))) := by
  refine ⟨{ g with data := fun r c => naiveData g o tol (r, c) }, ?_,
    rfl, rfl, rfl, rfl, rfl, rfl, ?_, ?_⟩
  · simp only [viewshed, if_pos hv, if_pos hin]
  · intro r c hrlt hclt
    show naiveData g o tol (r, c) = cellValue g o tol (r, c)
    rw [naiveData_eq, if_pos ⟨hrlt, hclt⟩]
  · intro r c hrlt hclt
    show (naiveData g o tol (r, c)).isSome = true ↔ _
    rw [naiveData_eq, if_pos ⟨hrlt, hclt⟩]
    unfold cellValue
    by_cases hp : (r, c) = g.obsCell o
    · simp [hp]
    · simp [hp]

/-- Witness for C6 at a concrete 2×2 grid (which even contains out-of-range
`none` entries in its data function). -/
theorem complete_output_grid_on_valid_input_witness :
    ValidGrid G2 ∧ G2.inExtent 0 0 ∧
    ∃ out, viewshed G2 ⟨0, 0, 0⟩ 0 = Except.ok out ∧
      out.rows = G2.rows ∧ out.cols = G2.cols ∧
      out.x0 = G2.x0 ∧ out.y0 = G2.y0 ∧ out.dx = G2.dx ∧ out.dy = G2.dy ∧
      (∀ r c, r < G2.rows → c < G2.cols →
        out.data r c = cellValue G2 ⟨0, 0, 0⟩ 0 (r, c)) ∧
      (∀ r c, r < G2.rows → c < G2.cols →
        ((out.data r c).isSome = true ↔
          ((r, c) = G2.obsCell ⟨0, 0, 0⟩ ∨
            (losEval G2 ⟨0, 0, 0⟩ 0 (r, c)).isSome = true))) := by
  have h1 : ValidGrid G2 := by
    refine ⟨by norm_num [G2], by norm_num [G2], ?_, ?_⟩ <;> norm_num [G2]
  have h2 : G2.inExtent 0 0 := by
    refine ⟨?_, ?_, ?_, ?_⟩ <;> norm_num [G2, Grid.xMax, Grid.yMax]
  exact ⟨h1, h2, complete_output_grid_on_valid_input G2 ⟨0, 0, 0⟩ 0 h1 h2⟩

/-! ## C8: flat terrain has no self-occlusion -/

/-- A 3×3 grid of constant elevation 7. -/
def GFlat : Grid :=
  { rows := 3, cols := 3, x0 := 0, y0 := 0, dx := 1, dy := 1,
    data := fun _ _ => some 7 }

/-- C8: for every grid of constant finite elevation, every in-bounds
observer, and every observer height offset ≥ 0, every cell of the output
grid is visible, regardless of its distance from the observer. -/
theorem flat_terrain_every_cell_visible (g : Grid) (o : Observer) (tol k : ℚ)
    (hconst : ∀ r c, g.data r c = some k) (hv : ValidGrid g)
    (hin : g.inExtent o.x o.y) (he : 0 ≤ o.elev) (htol : 0 ≤ tol) :
    ∃ out, viewshed g o tol = Except.ok out ∧
      ∀ r c, r < g.rows → c < g.cols → ∃ m, out.data r c = some m := by
  refine ⟨{ g with data := fun r c => naiveData g o tol (r, c) }, ?_, ?_⟩
  · simp only [viewshed, if_pos hv, if_pos hin]
  · intro r c hrlt hclt
    show ∃ m, naiveData g o tol (r, c) = some m
    rw [naiveData_eq, if_pos ⟨hrlt, hclt⟩]
    unfold cellValue
    by_cases hp : (r, c) = g.obsCell o
    · exact ⟨o.elev, by rw [if_pos hp]⟩
    · rw [if_neg hp]
      have hsamp : g.sample o.x o.y = some k := sample_const g k hconst o.x o.y
      have hn1 : 1 ≤ numSteps g o (r, c) := le_max_right _ _
      have hocc : ∀ i, 1 ≤ i → i < 1 + (numSteps g o (r, c) - 1) →
          occludesAt g o tol (r, c) (k + o.elev) k i = false := by
        intro i hi1 hi2
        have hik : i < numSteps g o (r, c) := by omega
        unfold occludesAt
        rw [sample_const g k hconst]
        simp only [decide_eq_false_iff_not, not_lt]
        have hnpos : (0 : ℚ) < (numSteps g o (r, c) : ℚ) := by
          exact_mod_cast hn1
        have ht1 : (i : ℚ) / (numSteps g o (r, c) : ℚ) ≤ 1 := by
          rw [div_le_one hnpos]
          exact_mod_cast le_of_lt hik
        unfold losElev
        nlinarith [mul_nonneg he (sub_nonneg.mpr ht1)]
      have hfo : firstOccIdx (occludesAt g o tol (r, c) (k + o.elev) k) 1
          (numSteps g o (r, c) - 1) = none :=
        (firstOccIdx_eq_none_iff _ _ _).mpr hocc
      refine ⟨k + o.elev - k, ?_⟩
      simp only [losEval, hsamp, hconst]
      rw [hfo]

/-- Witness for C8: the constant 3×3 grid, observer at the extent corner
with eye height 1. -/
theorem flat_terrain_every_cell_visible_witness :
    (∀ r c, GFlat.data r c = some 7) ∧ ValidGrid GFlat ∧ GFlat.inExtent 0 0 ∧
    ∃ out, viewshed GFlat ⟨0, 0, 1⟩ (1 / 1000) = Except.ok out ∧
      ∀ r c, r < GFlat.rows → c < GFlat.cols → ∃ m, out.data r c = some m := by
  have h0 : ∀ r c, GFlat.data r c = some 7 := fun _ _ => rfl
  have h1 : ValidGrid GFlat := by
    refine ⟨by norm_num [GFlat], by norm_num [GFlat], ?_, ?_⟩ <;> norm_num [GFlat]
  have h2 : GFlat.inExtent 0 0 := by
    refine ⟨?_, ?_, ?_, ?_⟩ <;> norm_num [GFlat, Grid.xMax, Grid.yMax]
  exact ⟨h0, h1, h2, flat_terrain_every_cell_visible GFlat ⟨0, 0, 1⟩ (1 / 1000) 7
    h0 h1 h2 (by norm_num) (by norm_num)⟩

/-! ## C2: functional characterization of the Line-of-Sight Evaluator -/

/-- C2: with a finite observer eye reference `s` and target elevation `eT`,
the evaluator walks the segment in `numSteps` steps — at least one per grid
cell crossed (Chebyshev distance) and at least one overall; a sampled
intermediate point occludes exactly when its bilinearly sampled terrain
elevation exceeds the linearly interpolated line-of-sight elevation beyond
the tolerance; the evaluator returns not-visible exactly when some
intermediate sample occludes, the scan stopping at the first such sample;
and any returned margin is the vertical clearance `E_obs - E_target`. -/
theorem los_evaluator_characterization (g : Grid) (o : Observer) (tol : ℚ)
    (p : Nat × Nat) (s eT : ℚ)
    (hs : g.sample o.x o.y = some s) (ht : g.data p.1 p.2 = some eT) :
    (chebDist (g.obsCell o) p ≤ numSteps g o p ∧ 1 ≤ numSteps g o p) ∧
    (∀ i e, g.sample (samplePoint g o p i).1 (samplePoint g o p i).2 = some e →
      (occludesAt g o tol p (s + o.elev) eT i = true ↔
        losElev (s + o.elev) eT ((i : ℚ) / (numSteps g o p : ℚ)) + tol < e)) ∧
    (losEval g o tol p = none ↔
      ∃ i, 1 ≤ i ∧ i < numSteps g o p ∧
        occludesAt g o tol p (s + o.elev) eT i = true) ∧
    (∀ j, firstOccIdx (occludesAt g o tol p (s + o.elev) eT) 1
        (numSteps g o p - 1) = some j →
      occludesAt g o tol p (s + o.elev) eT j = true ∧
      ∀ i, 1 ≤ i → i < j → occludesAt g o tol p (s + o.elev) eT i = false) ∧
    (∀ m, losEval g o tol p = some m → m = s + o.elev - eT) := by
  have hn1 : 1 ≤ numSteps g o p := le_max_right _ _
  refine ⟨⟨le_max_left _ _, hn1⟩, ?_, ?_, ?_, ?_⟩
  · intro i e hsmp
    unfold occludesAt
    rw [hsmp]
    simp only [decide_eq_true_eq]
  · simp only [losEval, hs, ht]
    cases hfo : firstOccIdx (occludesAt g o tol p (s + o.elev) eT) 1
        (numSteps g o p - 1) with
    | none =>
      simp only [hfo]
      constructor
      · intro hcontra
        cases hcontra
      · rintro ⟨i, hi1, hi2, hocc⟩
        have hfalse := (firstOccIdx_eq_none_iff _ _ _).mp hfo i hi1 (by omega)
        rw [hocc] at hfalse
        cases hfalse
    | some j =>
      simp only [hfo]
      obtain ⟨hocc, hj1, hj2, _⟩ := firstOccIdx_eq_some _ _ _ _ hfo
      exact ⟨fun _ => ⟨j, hj1, by omega, hocc⟩, fun _ => trivial⟩
  · intro j hfo
    obtain ⟨hocc, hj1, hj2, hfirst⟩ := firstOccIdx_eq_some _ _ _ _ hfo
    exact ⟨hocc, fun i hi1 hi2 => hfirst i hi1 hi2⟩
  · intro m hm
    simp only [losEval, hs, ht] at hm
    cases hfo : firstOccIdx (occludesAt g o tol p (s + o.elev) eT) 1
        (numSteps g o p - 1) with
    | none =>
      rw [hfo] at hm
      exact (Option.some.injEq _ _ ▸ hm).symm
    | some j =>
      rw [hfo] at hm
      cases hm

/-- Witness for C2: the flat grid, observer at the corner with eye height 1,
target the adjacent cell in the same row. -/
theorem los_evaluator_characterization_witness :
    GFlat.sample (0 : ℚ) (0 : ℚ) = some 7 ∧ GFlat.data 0 1 = some 7 ∧
    ((chebDist (GFlat.obsCell ⟨0, 0, 1⟩) (0, 1) ≤ numSteps GFlat ⟨0, 0, 1⟩ (0, 1) ∧
      1 ≤ numSteps GFlat ⟨0, 0, 1⟩ (0, 1)) ∧
    (∀ i e, GFlat.sample (samplePoint GFlat ⟨0, 0, 1⟩ (0, 1) i).1
        (samplePoint GFlat ⟨0, 0, 1⟩ (0, 1) i).2 = some e →
      (occludesAt GFlat ⟨0, 0, 1⟩ 0 (0, 1) (7 + 1) 7 i = true ↔
        losElev (7 + 1) 7 ((i : ℚ) / (numSteps GFlat ⟨0, 0, 1⟩ (0, 1) : ℚ)) + 0 < e)) ∧
    (losEval GFlat ⟨0, 0, 1⟩ 0 (0, 1) = none ↔
      ∃ i, 1 ≤ i ∧ i < numSteps GFlat ⟨0, 0, 1⟩ (0, 1) ∧
        occludesAt GFlat ⟨0, 0, 1⟩ 0 (0, 1) (7 + 1) 7 i = true) ∧
    (∀ j, firstOccIdx (occludesAt GFlat ⟨0, 0, 1⟩ 0 (0, 1) (7 + 1) 7) 1
        (numSteps GFlat ⟨0, 0, 1⟩ (0, 1) - 1) = some j →
      occludesAt GFlat ⟨0, 0, 1⟩ 0 (0, 1) (7 + 1) 7 j = true ∧
      ∀ i, 1 ≤ i → i < j → occludesAt GFlat ⟨0, 0, 1⟩ 0 (0, 1) (7 + 1) 7 i = false) ∧
    (∀ m, losEval GFlat ⟨0, 0, 1⟩ 0 (0, 1) = some m → m = 7 + 1 - 7)) := by
  have hs : GFlat.sample (0 : ℚ) (0 : ℚ) = some 7 :=
    sample_const GFlat 7 (fun _ _ => rfl) 0 0
  have ht : GFlat.data 0 1 = some 7 := rfl
  have h1 : (⟨0, 0, 1⟩ : Observer).elev = 1 := rfl
  have := los_evaluator_characterization GFlat ⟨0, 0, 1⟩ 0 (0, 1) 7 7 hs ht
  rw [h1] at this
  exact ⟨hs, ht, this⟩

/-! ## C4: monotonicity of the viewshed in the observer height -/

theorem occludesAt_mono_elev (g : Grid) (x y tol s eT : ℚ) (h1 h2 : ℚ)
    (hh : h1 ≤ h2) (p : Nat × Nat) (i : Nat)
    (hik : i < numSteps g ⟨x, y, h1⟩ p) :
    occludesAt g ⟨x, y, h2⟩ tol p (s + h2) eT i = true →
    occludesAt g ⟨x, y, h1⟩ tol p (s + h1) eT i = true := by
  unfold occludesAt
  have hpt : samplePoint g ⟨x, y, h2⟩ p i = samplePoint g ⟨x, y, h1⟩ p i := rfl
  have hns : numSteps g ⟨x, y, h2⟩ p = numSteps g ⟨x, y, h1⟩ p := rfl
  rw [hpt, hns]
  cases hsmp : g.sample (samplePoint g ⟨x, y, h1⟩ p i).1
      (samplePoint g ⟨x, y, h1⟩ p i).2 with
  | none => exact id
  | some e =>
    simp only [decide_eq_true_eq]
    intro hlt
    have hn1 : 1 ≤ numSteps g ⟨x, y, h1⟩ p := le_max_right _ _
    have hnpos : (0 : ℚ) < (numSteps g ⟨x, y, h1⟩ p : ℚ) := by exact_mod_cast hn1
    have ht1 : (i : ℚ) / (numSteps g ⟨x, y, h1⟩ p : ℚ) ≤ 1 := by
      rw [div_le_one hnpos]
      exact_mod_cast le_of_lt hik
    unfold losElev at hlt ⊢
    nlinarith [mul_nonneg (sub_nonneg.mpr hh) (sub_nonneg.mpr ht1)]

/-- C4: for a fixed grid, observer position and tolerance, and observer
heights `h1 ≤ h2`: every cell visible at height `h1` is also visible at
height `h2`, with a visibility margin at least as large (the viewshed
output is monotone in `observer_elev`). -/
theorem visibility_monotone_in_observer_elev (g : Grid) (tol x y h1 h2 : ℚ)
    (hh : h1 ≤ h2) (r c : Nat) (m1 : ℚ)
    (hm : naiveData g ⟨x, y, h1⟩ tol (r, c) = some m1) :
    ∃ m2, naiveData g ⟨x, y, h2⟩ tol (r, c) = some m2 ∧ m1 ≤ m2 := by
  rw [naiveData_eq] at hm ⊢
  by_cases hb : r < g.rows ∧ c < g.cols
  case neg =>
    rw [if_neg hb] at hm
    cases hm
  rw [if_pos hb] at hm ⊢
  have hoc : g.obsCell ⟨x, y, h2⟩ = g.obsCell ⟨x, y, h1⟩ := rfl
  unfold cellValue at hm ⊢
  rw [hoc]
  by_cases hp : (r, c) = g.obsCell ⟨x, y, h1⟩
  · rw [if_pos hp] at hm ⊢
    injection hm with hm1
    exact ⟨h2, rfl, by rw [← hm1]; exact hh⟩
  · rw [if_neg hp] at hm ⊢
    cases hsamp : g.sample x y with
    | none =>
      simp only [losEval, hsamp] at hm
      cases hm
    | some s =>
      cases hdata : g.data r c with
      | none =>
        simp only [losEval, hsamp, hdata] at hm
        cases hm
      | some eT =>
        simp only [losEval, hsamp, hdata] at hm ⊢
        have hns : numSteps g ⟨x, y, h2⟩ (r, c) = numSteps g ⟨x, y, h1⟩ (r, c) := rfl
        rw [hns]
        have hn1 : 1 ≤ numSteps g ⟨x, y, h1⟩ (r, c) := le_max_right _ _
        cases hfo1 : firstOccIdx (occludesAt g ⟨x, y, h1⟩ tol (r, c) (s + h1) eT) 1
            (numSteps g ⟨x, y, h1⟩ (r, c) - 1) with
        | some j =>
          rw [hfo1] at hm
          cases hm
        | none =>
          rw [hfo1] at hm
          injection hm with hm1
          have hfo2 : firstOccIdx (occludesAt g ⟨x, y, h2⟩ tol (r, c) (s + h2) eT) 1
              (numSteps g ⟨x, y, h1⟩ (r, c) - 1) = none := by
            rw [firstOccIdx_eq_none_iff]
            intro i hi1 hi2
            cases ho : occludesAt g ⟨x, y, h2⟩ tol (r, c) (s + h2) eT i with
            | false => rfl
            | true =>
              have h1occ := occludesAt_mono_elev g x y tol s eT h1 h2 hh (r, c) i
                (by omega) ho
              have hfalse := (firstOccIdx_eq_none_iff _ _ _).mp hfo1 i hi1 hi2
              rw [h1occ] at hfalse
              cases hfalse
          rw [hfo2]
          exact ⟨s + h2 - eT, rfl, by rw [← hm1]; linarith⟩

/-- Witness for C4: the flat grid with observer at the corner, target the
adjacent cell, heights 0 ≤ 1. -/
theorem visibility_monotone_in_observer_elev_witness :
    (0 : ℚ) ≤ 1 ∧ naiveData GFlat ⟨0, 0, 0⟩ 0 (0, 1) = some 0 ∧
    ∃ m2, naiveData GFlat ⟨0, 0, 1⟩ 0 (0, 1) = some m2 ∧ (0 : ℚ) ≤ m2 := by
  have hm : naiveData GFlat ⟨0, 0, 0⟩ 0 (0, 1) = some 0 := by
    rw [naiveData_eq]
    norm_num [GFlat, cellValue, Grid.obsCell, fracIdx, losEval, Grid.sample,
      numSteps, chebDist, samplePoint, cellCenter, losElev, occludesAt, firstOccIdx]
  exact ⟨by norm_num, hm,
    visibility_monotone_in_observer_elev GFlat 0 0 0 0 1 (by norm_num) 0 1 0 hm⟩

/-! ## C7: the bilinear interpolation formula -/

/-- C7: for an in-cell coordinate with fractional offsets `(u, v) ∈ [0,1)²`
whose enclosing cell has four finite corner elevations, `sample` returns
exactly the bilinear weighted average; if any corner elevation is
non-finite the sample is non-finite; and at every grid boundary where
fewer than four corners exist — the last column, the last row, and the
far corner — the sample equals the nearest available corner value. -/
theorem bilinear_sample_formula (g : Grid) (hv : ValidGrid g) (c0 r0 : Nat)
    (u v : ℚ) (hu0 : 0 ≤ u) (hu1 : u < 1) (hv0 : 0 ≤ v) (hv1 : v < 1) :
    (∀ e00 e10 e01 e11, c0 + 1 < g.cols → r0 + 1 < g.rows →
      g.data r0 c0 = some e00 → g.data r0 (c0 + 1) = some e10 →
      g.data (r0 + 1) c0 = some e01 → g.data (r0 + 1) (c0 + 1) = some e11 →
      g.sample (g.x0 + ((c0 : ℚ) + u) * g.dx) (g.y0 + ((r0 : ℚ) + v) * g.dy) =
        some ((1 - u) * (1 - v) * e00 + u * (1 - v) * e10 +
              (1 - u) * v * e01 + u * v * e11)) ∧
    (c0 + 1 < g.cols → r0 + 1 < g.rows →
      (g.data r0 c0 = none ∨ g.data r0 (c0 + 1) = none ∨
        g.data (r0 + 1) c0 = none ∨ g.data (r0 + 1) (c0 + 1) = none) →
      g.sample (g.x0 + ((c0 : ℚ) + u) * g.dx) (g.y0 + ((r0 : ℚ) + v) * g.dy) =
        none) ∧
    (r0 + 1 < g.rows →
      g.sample (g.x0 + ((g.cols - 1 : Nat) : ℚ) * g.dx)
          (g.y0 + ((r0 : ℚ) + v) * g.dy) =
        g.data (if 1 / 2 < v then r0 + 1 else r0) (g.cols - 1)) ∧
    (c0 + 1 < g.cols →
      g.sample (g.x0 + ((c0 : ℚ) + u) * g.dx)
          (g.y0 + ((g.rows - 1 : Nat) : ℚ) * g.dy) =
        g.data (g.rows - 1) (if 1 / 2 < u then c0 + 1 else c0)) ∧
    (g.sample (g.x0 + ((g.cols - 1 : Nat) : ℚ) * g.dx)
        (g.y0 + ((g.rows - 1 : Nat) : ℚ) * g.dy) =
      g.data (g.rows - 1) (g.cols - 1)) := by
  obtain ⟨hr, hc, hdx, hdy⟩ := hv
  have hfx := fracIdx_of_exact g.x0 g.dx hdx c0 u hu0 hu1
  have hfy := fracIdx_of_exact g.y0 g.dy hdy r0 v hv0 hv1
  have hfx2 : fracIdx g.x0 g.dx (g.x0 + ((g.cols - 1 : Nat) : ℚ) * g.dx) =
      (g.cols - 1, 0) := by
    rw [show g.x0 + ((g.cols - 1 : Nat) : ℚ) * g.dx =
        g.x0 + (((g.cols - 1 : Nat) : ℚ) + 0) * g.dx by ring]
    exact fracIdx_of_exact g.x0 g.dx hdx (g.cols - 1) 0 le_rfl one_pos
  have hfy2 : fracIdx g.y0 g.dy (g.y0 + ((g.rows - 1 : Nat) : ℚ) * g.dy) =
      (g.rows - 1, 0) := by
    rw [show g.y0 + ((g.rows - 1 : Nat) : ℚ) * g.dy =
        g.y0 + (((g.rows - 1 : Nat) : ℚ) + 0) * g.dy by ring]
    exact fracIdx_of_exact g.y0 g.dy hdy (g.rows - 1) 0 le_rfl one_pos
  refine ⟨?_, ?_, ?_, ?_, ?_⟩
  · intro e00 e10 e01 e11 hcc hrr h00 h10 h01 h11
    simp only [Grid.sample, hfx, hfy, if_pos (And.intro hcc hrr), h00, h10, h01, h11]
  · intro hcc hrr hnone
    simp only [Grid.sample, hfx, hfy, if_pos (And.intro hcc hrr)]
    cases h00 : g.data r0 c0 with
    | none => rfl
    | some e00 =>
      cases h10 : g.data r0 (c0 + 1) with
      | none => rfl
      | some e10 =>
        cases h01 : g.data (r0 + 1) c0 with
        | none => rfl
        | some e01 =>
          cases h11 : g.data (r0 + 1) (c0 + 1) with
          | none => rfl
          | some e11 =>
            exfalso
            rcases hnone with h | h | h | h
            · rw [h00] at h
              cases h
            · rw [h10] at h
              cases h
            · rw [h01] at h
              cases h
            · rw [h11] at h
              cases h
  · intro hrr
    simp only [Grid.sample, hfx2, hfy]
    have hne : ¬(g.cols - 1 + 1 < g.cols ∧ r0 + 1 < g.rows) := by
      rintro ⟨hcl, _⟩
      omega
    rw [if_neg hne]
    have hcond : ¬(g.cols - 1 + 1 < g.cols ∧ (1 : ℚ) / 2 < 0) := by
      rintro ⟨hcl, _⟩
      omega
    rw [if_neg hcond]
    by_cases hv2 : (1 : ℚ) / 2 < v
    · rw [if_pos ⟨hrr, hv2⟩, if_pos hv2]
    · rw [if_neg (fun hand => hv2 hand.2), if_neg hv2]
  · intro hcc
    simp only [Grid.sample, hfx, hfy2]
    have hne : ¬(c0 + 1 < g.cols ∧ g.rows - 1 + 1 < g.rows) := by
      rintro ⟨_, hrl⟩
      omega
    rw [if_neg hne]
    have hcond : ¬(g.rows - 1 + 1 < g.rows ∧ (1 : ℚ) / 2 < 0) := by
      rintro ⟨hrl, _⟩
      omega
    rw [if_neg hcond]
    by_cases hu2 : (1 : ℚ) / 2 < u
    · rw [if_pos ⟨hcc, hu2⟩, if_pos hu2]
    · rw [if_neg (fun hand => hu2 hand.2), if_neg hu2]
  · simp only [Grid.sample, hfx2, hfy2]
    have hne : ¬(g.cols - 1 + 1 < g.cols ∧ g.rows - 1 + 1 < g.rows) := by
      rintro ⟨hcl, _⟩
      omega
    rw [if_neg hne]
    have hcondr : ¬(g.rows - 1 + 1 < g.rows ∧ (1 : ℚ) / 2 < 0) := by
      rintro ⟨hrl, _⟩
      omega
    have hcondc : ¬(g.cols - 1 + 1 < g.cols ∧ (1 : ℚ) / 2 < 0) := by
      rintro ⟨hcl, _⟩
      omega
    rw [if_neg hcondr, if_neg hcondc]

/-- Witness for C7 on the 2×2 grid at the cell-interior point (1/2, 1/4):
the bilinear formula, evaluated concretely. -/
theorem bilinear_sample_formula_witness :
    ValidGrid G2 ∧ (0 : ℚ) ≤ 1 / 2 ∧ (1 / 2 : ℚ) < 1 ∧
      (0 : ℚ) ≤ 1 / 4 ∧ (1 / 4 : ℚ) < 1 ∧
    G2.sample (1 / 2) (1 / 4) = some ((1 - 1 / 2) * (1 - 1 / 4) * 1 +
      (1 / 2) * (1 - 1 / 4) * 0 + (1 - 1 / 2) * (1 / 4) * 0 +
      (1 / 2) * (1 / 4) * 0) := by
  have h1 : ValidGrid G2 := by
    refine ⟨by norm_num [G2], by norm_num [G2], ?_, ?_⟩ <;> norm_num [G2]
  have hform := (bilinear_sample_formula G2 h1 0 0 (1 / 2) (1 / 4)
    (by norm_num) (by norm_num) (by norm_num) (by norm_num)).1
    1 0 0 0 (by norm_num [G2]) (by norm_num [G2])
    (by norm_num [G2]) (by norm_num [G2]) (by norm_num [G2]) (by norm_num [G2])
  refine ⟨h1, by norm_num, by norm_num, by norm_num, by norm_num, ?_⟩
  have hx : (G2.x0 + ((0 : Nat) + (1 / 2 : ℚ)) * G2.dx) = (1 / 2 : ℚ) := by
    norm_num [G2]
  have hy : (G2.y0 + ((0 : Nat) + (1 / 4 : ℚ)) * G2.dy) = (1 / 4 : ℚ) := by
    norm_num [G2]
  rw [hx, hy] at hform
  exact hform

/-! ## C9: symmetry of the reference evaluator -/

theorem natAbs_sub_comm (a b : Int) : (a - b).natAbs = (b - a).natAbs := by
  omega

theorem chebDist_comm (p q : Nat × Nat) : chebDist p q = chebDist q p := by
  unfold chebDist
  rw [natAbs_sub_comm (p.1 : Int) (q.1 : Int), natAbs_sub_comm (p.2 : Int) (q.2 : Int)]

theorem numSteps_center_comm (g : Grid) (hv : ValidGrid g) (P Q : Nat × Nat)
    (h1 h2 : ℚ) :
    numSteps g (centerObs g Q h1) P = numSteps g (centerObs g P h2) Q := by
  unfold numSteps
  rw [obsCell_centerObs g hv, obsCell_centerObs g hv, chebDist_comm]

/-- Reversing observer and target cell centers mirrors the occlusion test:
the `i`-th intermediate sample from `P`'s center towards `Q`'s center is the
`(n - i)`-th sample from `Q`'s center towards `P`'s center, against the
mirrored line of sight. -/
theorem occludesAt_reverse (g : Grid) (hv : ValidGrid g) (tol : ℚ)
    (P Q : Nat × Nat) (a b : ℚ) (i : Nat)
    (hi1 : 1 ≤ i) (hi2 : i < numSteps g (centerObs g P 0) Q) :
    occludesAt g (centerObs g P 0) tol Q a b i =
    occludesAt g (centerObs g Q 0) tol P b a
      (numSteps g (centerObs g P 0) Q - i) := by
  have hnum : numSteps g (centerObs g Q 0) P = numSteps g (centerObs g P 0) Q :=
    numSteps_center_comm g hv P Q 0 0
  have hn1 : 1 ≤ numSteps g (centerObs g P 0) Q := le_max_right _ _
  have hile : i ≤ numSteps g (centerObs g P 0) Q := le_of_lt hi2
  have hcast : ((numSteps g (centerObs g P 0) Q - i : Nat) : ℚ) =
      ((numSteps g (centerObs g P 0) Q : Nat) : ℚ) - (i : ℚ) :=
    Nat.cast_sub hile
  have hnq : (0 : ℚ) < ((numSteps g (centerObs g P 0) Q : Nat) : ℚ) := by
    exact_mod_cast hn1
  have hpt : samplePoint g (centerObs g Q 0) P
      (numSteps g (centerObs g P 0) Q - i) =
      samplePoint g (centerObs g P 0) Q i := by
    simp only [samplePoint]
    rw [hnum, hcast,
        show (centerObs g Q 0).x = g.x0 + (Q.2 : ℚ) * g.dx from rfl,
        show (centerObs g Q 0).y = g.y0 + (Q.1 : ℚ) * g.dy from rfl,
        show (centerObs g P 0).x = g.x0 + (P.2 : ℚ) * g.dx from rfl,
        show (centerObs g P 0).y = g.y0 + (P.1 : ℚ) * g.dy from rfl,
        show (cellCenter g P).1 = g.x0 + (P.2 : ℚ) * g.dx from rfl,
        show (cellCenter g P).2 = g.y0 + (P.1 : ℚ) * g.dy from rfl,
        show (cellCenter g Q).1 = g.x0 + (Q.2 : ℚ) * g.dx from rfl,
        show (cellCenter g Q).2 = g.y0 + (Q.1 : ℚ) * g.dy from rfl]
    generalize ((numSteps g (centerObs g P 0) Q : Nat) : ℚ) = n at hnq ⊢
    have hnn : n ≠ 0 := ne_of_gt hnq
    simp only [Prod.mk.injEq]
    constructor
    · field_simp
      ring
    · field_simp
      ring
  have hlos : losElev b a ((((numSteps g (centerObs g P 0) Q : Nat) : ℚ) - (i : ℚ)) /
      ((numSteps g (centerObs g P 0) Q : Nat) : ℚ)) =
      losElev a b ((i : ℚ) / ((numSteps g (centerObs g P 0) Q : Nat) : ℚ)) := by
    unfold losElev
    field_simp
    ring
  unfold occludesAt
  simp only [hpt, hnum, hcast, hlos]

/-- C9 (amended): under the reference (4.3) evaluator, on terrain with no
non-finite values, visibility between two cell centers is symmetric when
the eye height offset is zero: `Q` is visible from an observer at `P`'s
center exactly when `P` is visible from an observer at `Q`'s center.  (For
a positive eye height `h` the claim as stated is false — see the
counterexample — because the raised line of sight from one end is not the
mirror of the raised line of sight from the other.) -/
theorem reference_visibility_symmetric_at_zero_height (g : Grid) (tol : ℚ)
    (hv : ValidGrid g) (P Q : Nat × Nat)
    (hP1 : P.1 < g.rows) (hP2 : P.2 < g.cols)
    (hQ1 : Q.1 < g.rows) (hQ2 : Q.2 < g.cols)
    (hfin : ∀ r c, r < g.rows → c < g.cols → ∃ e, g.data r c = some e) :
    (losEval g (centerObs g P 0) tol Q).isSome =
    (losEval g (centerObs g Q 0) tol P).isSome := by
  obtain ⟨eP, heP⟩ := hfin P.1 P.2 hP1 hP2
  obtain ⟨eQ, heQ⟩ := hfin Q.1 Q.2 hQ1 hQ2
  have hsP : g.sample (centerObs g P 0).x (centerObs g P 0).y = some eP := by
    rw [show (centerObs g P 0).x = (cellCenter g P).1 from rfl,
        show (centerObs g P 0).y = (cellCenter g P).2 from rfl,
        sample_center g hv hfin P hP1 hP2]
    exact heP
  have hsQ : g.sample (centerObs g Q 0).x (centerObs g Q 0).y = some eQ := by
    rw [show (centerObs g Q 0).x = (cellCenter g Q).1 from rfl,
        show (centerObs g Q 0).y = (cellCenter g Q).2 from rfl,
        sample_center g hv hfin Q hQ1 hQ2]
    exact heQ
  have hnum : numSteps g (centerObs g Q 0) P = numSteps g (centerObs g P 0) Q :=
    numSteps_center_comm g hv P Q 0 0
  have hn1 : 1 ≤ numSteps g (centerObs g P 0) Q := le_max_right _ _
  simp only [losEval, hsP, hsQ, heP, heQ,
    show (centerObs g P 0).elev = 0 from rfl,
    show (centerObs g Q 0).elev = 0 from rfl, add_zero, hnum]
  have hiff :
      (firstOccIdx (occludesAt g (centerObs g P 0) tol Q eP eQ) 1
        (numSteps g (centerObs g P 0) Q - 1) = none) ↔
      (firstOccIdx (occludesAt g (centerObs g Q 0) tol P eQ eP) 1
        (numSteps g (centerObs g P 0) Q - 1) = none) := by
    rw [firstOccIdx_eq_none_iff, firstOccIdx_eq_none_iff]
    constructor
    · intro hall j hj1 hj2
      have hj : j < numSteps g (centerObs g Q 0) P := by omega
      have hrev := occludesAt_reverse g hv tol Q P eQ eP j hj1 hj
      rw [hrev, hnum]
      exact hall (numSteps g (centerObs g P 0) Q - j) (by omega) (by omega)
    · intro hall j hj1 hj2
      have hj : j < numSteps g (centerObs g P 0) Q := by omega
      have hrev := occludesAt_reverse g hv tol P Q eP eQ j hj1 hj
      rw [hrev]
      exact hall (numSteps g (centerObs g P 0) Q - j) (by omega) (by omega)
  cases hF : firstOccIdx (occludesAt g (centerObs g P 0) tol Q eP eQ) 1
      (numSteps g (centerObs g P 0) Q - 1) with
  | none =>
    rw [hiff.mp hF]
    rfl
  | some j =>
    cases hB : firstOccIdx (occludesAt g (centerObs g Q 0) tol P eQ eP) 1
        (numSteps g (centerObs g P 0) Q - 1) with
    | none =>
      rw [hiff.mpr hB] at hF
      cases hF
    | some j2 =>
      rfl

/-- Counterexample to C9 as stated (with a positive matching eye height):
on the no-data-free 1×5 strip `G9` with eye height 10 at both ends and a
wall of height 5 next to cell `(0,4)`, cell `(0,0)` is visible from an
observer at the center of cell `(0,4)`, but cell `(0,4)` is not visible
from an observer at the center of cell `(0,0)` with the same eye height. -/
theorem reference_visibility_not_symmetric_with_height :
    (losEval G9 (centerObs G9 (0, 4) 10) 0 (0, 0)).isSome = true ∧
    (losEval G9 (centerObs G9 (0, 0) 10) 0 (0, 4)).isSome = false := by
  constructor
  · norm_num [losEval, Grid.sample, fracIdx, numSteps, chebDist, Grid.obsCell,
      samplePoint, cellCenter, losElev, occludesAt, firstOccIdx, G9, centerObs]
    norm_num [Int.toNat]
  · norm_num [losEval, Grid.sample, fracIdx, numSteps, chebDist, Grid.obsCell,
      samplePoint, cellCenter, losElev, occludesAt, firstOccIdx, G9, centerObs]
    norm_num [Int.toNat]

/-- Witness for the amended C9 on the no-data-free strip `G9` with zero eye
height, cells `(0,0)` and `(0,4)`. -/
theorem reference_visibility_symmetric_at_zero_height_witness :
    ValidGrid G9 ∧ (0 : Nat) < G9.rows ∧ (0 : Nat) < G9.cols ∧
    (0 : Nat) < G9.rows ∧ (4 : Nat) < G9.cols ∧
    (∀ r c, r < G9.rows → c < G9.cols → ∃ e, G9.data r c = some e) ∧
    (losEval G9 (centerObs G9 (0, 0) 0) 0 (0, 4)).isSome =
    (losEval G9 (centerObs G9 (0, 4) 0) 0 (0, 0)).isSome := by
  have h1 : ValidGrid G9 := by
    refine ⟨by norm_num [G9], by norm_num [G9], ?_, ?_⟩ <;> norm_num [G9]
  have hfin : ∀ r c, r < G9.rows → c < G9.cols → ∃ e, G9.data r c = some e := by
    intro r c hr hc
    have hr0 : r = 0 := by
      have : G9.rows = 1 := rfl
      omega
    refine ⟨if c = 3 then 5 else 0, ?_⟩
    subst hr0
    have hc5 : c < 5 := hc
    simp [G9, hc5]
  refine ⟨h1, by norm_num [G9], by norm_num [G9], by norm_num [G9],
    by norm_num [G9], hfin, ?_⟩
  exact reference_visibility_symmetric_at_zero_height G9 0 h1 (0, 0) (0, 4)
    (by norm_num [G9]) (by norm_num [G9]) (by norm_num [G9]) (by norm_num [G9]) hfin

end ViewshedSpec
